import Mathlib

/-!
Verification of the numeric-literal readability checker
(`src/flake8_numbers/check_numbers.py`).

The core of the program is `check_constant`, a pure function of the exact
source text of one numeric literal together with its (line, column)
position.  We embed the literal text as a `List Char` (Python strings are
sequences of characters and the program only ever splits on single-character
separators), and we embed each helper of the source file:

* `_base_value`            → `base_value`
* `_separator_modulo_for_base` → `separator_modulo_for_base`
* `_check_underscore_modulos`  → `check_underscore_modulos`
* `check_constant`         → `check_constant`

Python's `str.split(sep)` for a one-character separator is embedded as
`splitOnChar`; `str.lower()` as `lowerStr`; `s[2:]` as `List.drop 2`.
Python list indexing `e_parts[1]` raises `IndexError` when the list is too
short, so `check_constant` returns `Except Unit (Option ErrorReport)`:
`.error ()` models the raised exception, `.ok none` "no finding" and
`.ok (some r)` "exactly one finding".

The `type(node.value) not in (int, float)` guard of the source is outside
the string model: we only consider texts of numeric (int/float) literals,
as the spec's `Literal` invariant guarantees.
-/

namespace Flake8Numbers

/-- The error report produced for a literal, as in the source's
`ErrorReport` dataclass: line, column and the rendered message. -/
structure ErrorReport where
  line : Nat
  column : Nat
  message : String
  deriving DecidableEq

/-- Python `str.lower()` restricted to what the program needs:
character-wise lowercasing. -/
def lowerStr (s : List Char) : List Char :=
  s.map Char.toLower

/-- `_base_value`: inspect the (lowercased) first two characters:
`0b` → 2, `0o` → 8, `0x` → 16, otherwise 10. -/
def base_value (number_literal : List Char) : Nat :=
  if (lowerStr number_literal).take 2 = ['0', 'b'] then 2
  else if (lowerStr number_literal).take 2 = ['0', 'o'] then 8
  else if (lowerStr number_literal).take 2 = ['0', 'x'] then 16
  else 10

/-- `_separator_modulo_for_base`: 2, 8, 16 → 4; anything else → 3. -/
def separator_modulo_for_base (base : Nat) : Nat :=
  match base with
  | 2 => 4
  | 8 => 4
  | 16 => 4
  | _ => 3

/-- Helper for `splitOnChar`: prepend a character to the first group of a
split result (the result of a split is never empty, the `[]` case is dead). -/
def consHead (a : Char) : List (List Char) → List (List Char)
  | [] => [[a]]
  | s :: ss => (a :: s) :: ss

/-- Python `str.split(sep)` for a single-character separator `c`:
`"".split(c) = [""]`, and each occurrence of `c` starts a new (possibly
empty) group. -/
def splitOnChar (c : Char) : List Char → List (List Char)
  | [] => [[]]
  | a :: rest =>
    if a = c then [] :: splitOnChar c rest
    else consHead a (splitOnChar c rest)

/-- The message rendered by `_check_underscore_modulos` on a violation. -/
def mkMessage (modulo : Nat) (original_literal : List Char) : String :=
  "NUM01: Use underscores every " ++ toString modulo ++
    " digits in large numeric literals (" ++ String.mk original_literal ++
    ") for better readability."

/-- The continuation of the loop of `_check_underscore_modulos` for the
parts after the first (`i != 0`): each must have length exactly `modulo`,
and the first offender yields the report. -/
def contParts (modulo : Nat) (report : ErrorReport) :
    List (List Char) → Option ErrorReport
  | [] => none
  | p :: rest =>
    if p.length ≠ modulo then some report else contParts modulo report rest

/-- `_check_underscore_modulos`: split the fragment at underscores; the
first part may be at most `modulo` long, every later part must be exactly
`modulo` long; the first violation produces the report (line, column and
message built from `modulo` and the original literal text). -/
def check_underscore_modulos (fragment original_literal : List Char)
    (modulo : Nat) (line column : Nat) : Option ErrorReport :=
  match splitOnChar '_' fragment with
  | [] => none
  | p0 :: rest =>
    if p0.length > modulo then
      some ⟨line, column, mkMessage modulo original_literal⟩
    else contParts modulo ⟨line, column, mkMessage modulo original_literal⟩ rest

/-- The segment list built by `check_constant` (its `parts` variable), with
`.error ()` for the `IndexError` that Python raises at `e_parts[1]` when
`original_literal.split("e")` has a single element (which happens exactly
when the scientific-notation test succeeded case-insensitively but the
marker is an uppercase `E`). -/
def segmentsOf (original_literal : List Char) :
    Except Unit (List (List Char)) :=
  if base_value original_literal = 10 ∧ 'e' ∈ lowerStr original_literal then
    match splitOnChar 'e' original_literal with
    | [] => .error ()
    | [_] => .error ()
    | mantissa :: exponent :: _ =>
      .ok (splitOnChar '.' mantissa ++ [exponent])
  else if '.' ∈ original_literal then .ok (splitOnChar '.' original_literal)
  else if ¬ (base_value original_literal = 10) then
    .ok [original_literal.drop 2]
  else .ok [original_literal]

/-- The final loop of `check_constant`: return the report of the first
segment rejected by `_check_underscore_modulos`, if any. -/
def findFirstError (parts : List (List Char)) (original_literal : List Char)
    (modulo : Nat) (line column : Nat) : Option ErrorReport :=
  match parts with
  | [] => none
  | p :: rest =>
    match check_underscore_modulos p original_literal modulo line column with
    | some e => some e
    | none => findFirstError rest original_literal modulo line column

/-- `check_constant`, as a function of the literal's extracted source text
and its (line, column) position: the `True`/`False` guard, classification,
segmentation, and the per-segment underscore check. -/
def check_constant (original_literal : List Char) (line column : Nat) :
    Except Unit (Option ErrorReport) :=
  if original_literal = "True".data ∨ original_literal = "False".data then
    .ok none
  else
    match segmentsOf original_literal with
    | .error e => .error e
    | .ok parts =>
      .ok (findFirstError parts original_literal
        (separator_modulo_for_base (base_value original_literal)) line column)

deriving instance DecidableEq for Except

/-- Remove one optional leading minus sign from a literal text. -/
def stripSign (s : List Char) : List Char :=
  match s with
  | '-' :: rest => rest
  | _ => s

/-- Modelled from the spec: the spec's sole entry point
`validate(Literal) -> ValidationResult` receives the literal text as
written, optionally with a leading minus sign, and "Strip an optional
leading sign; it does not affect classification or segmentation".  In the
program this stripping is realized by the source front end: a unary minus
is not part of the `ast.Constant` node, so `check_constant` only ever sees
the unsigned text (the repository's tests exercise `-100_000`,
`-0o17_1234`, `-0xAAA_DEAD_BEEF`, `-0b1010_1010_1010` through that
pipeline).  `validate` models the pipeline: strip the sign, then run
`check_constant` on the rest. -/
def validate (s : List Char) (line column : Nat) :
    Except Unit (Option ErrorReport) :=
  check_constant (stripSign s) line column

/-- The shape required of the underscore-delimited parts of one segment:
the first part at most `modulo` long, every later part exactly `modulo`
long.  This is the spec-side formulation against which the validator loop
is compared. -/
def goodShape (parts : List (List Char)) (modulo : Nat) : Prop :=
  match parts with
  | [] => True
  | p0 :: rest => p0.length ≤ modulo ∧ ∀ q ∈ rest, q.length = modulo

instance : ∀ parts modulo, Decidable (goodShape parts modulo) := by
  intro parts modulo
  cases parts with
  | nil => exact isTrue trivial
  | cons p0 rest => exact inferInstanceAs (Decidable (_ ∧ _))

/-! ### Basic lemmas about the embedded helpers -/

theorem splitOnChar_ne_nil (c : Char) (s : List Char) : splitOnChar c s ≠ [] := by
  induction s with
  | nil => simp [splitOnChar]
  | cons a rest ih =>
    simp only [splitOnChar]
    split
    · simp
    · cases h : splitOnChar c rest with
      | nil => simp [consHead]
      | cons t ts => simp [consHead]

theorem splitOnChar_of_not_mem (c : Char) (s : List Char) (h : c ∉ s) :
    splitOnChar c s = [s] := by
  induction s with
  | nil => rfl
  | cons a rest ih =>
    simp only [List.mem_cons, not_or] at h
    have hac : ¬ a = c := fun hh => h.1 hh.symm
    simp only [splitOnChar, if_neg hac, ih h.2, consHead]

theorem splitOnChar_append (c : Char) (xs ys : List Char) (h : c ∉ xs) :
    splitOnChar c (xs ++ c :: ys) = xs :: splitOnChar c ys := by
  induction xs with
  | nil => simp [splitOnChar]
  | cons a xs ih =>
    simp only [List.mem_cons, not_or] at h
    have hac : ¬ a = c := fun hh => h.1 hh.symm
    simp only [List.cons_append, splitOnChar, if_neg hac, List.append_eq,
      ih h.2, consHead]

theorem contParts_eq_none_iff (modulo : Nat) (report : ErrorReport)
    (l : List (List Char)) :
    contParts modulo report l = none ↔ ∀ q ∈ l, q.length = modulo := by
  induction l with
  | nil => simp [contParts]
  | cons p rest ih =>
    simp only [contParts]
    split
    · simp_all
    · simp_all

theorem contParts_eq_some (modulo : Nat) (report : ErrorReport)
    (l : List (List Char)) (r : ErrorReport)
    (h : contParts modulo report l = some r) : r = report := by
  induction l with
  | nil => simp [contParts] at h
  | cons p rest ih =>
    simp only [contParts] at h
    split at h
    · exact (Option.some_injective _ h).symm
    · exact ih h

theorem check_underscore_modulos_none_iff (fragment original_literal : List Char)
    (modulo line column : Nat) :
    check_underscore_modulos fragment original_literal modulo line column = none ↔
      goodShape (splitOnChar '_' fragment) modulo := by
  unfold check_underscore_modulos
  cases h : splitOnChar '_' fragment with
  | nil => simp [goodShape]
  | cons p0 rest =>
    simp only [goodShape]
    split
    · constructor
      · intro hc
        exact absurd hc (by simp)
      · intro hc
        omega
    · rw [contParts_eq_none_iff]
      constructor
      · intro hall
        exact ⟨by omega, hall⟩
      · intro hall
        exact hall.2

theorem check_underscore_modulos_some (fragment original_literal : List Char)
    (modulo line column : Nat) (r : ErrorReport)
    (h : check_underscore_modulos fragment original_literal modulo line column =
      some r) :
    r = ⟨line, column, mkMessage modulo original_literal⟩ := by
  unfold check_underscore_modulos at h
  split at h
  · simp at h
  · split at h
    · exact (Option.some_injective _ h).symm
    · exact contParts_eq_some _ _ _ _ h

theorem findFirstError_none_iff (parts : List (List Char))
    (original_literal : List Char) (modulo line column : Nat) :
    findFirstError parts original_literal modulo line column = none ↔
      ∀ p ∈ parts,
        check_underscore_modulos p original_literal modulo line column = none := by
  induction parts with
  | nil => simp [findFirstError]
  | cons p rest ih =>
    simp only [findFirstError]
    cases h : check_underscore_modulos p original_literal modulo line column with
    | some e => simp_all
    | none => simp_all

theorem findFirstError_first (pre : List (List Char)) (seg : List Char)
    (post : List (List Char)) (original_literal : List Char)
    (modulo line column : Nat) (r : ErrorReport)
    (hpre : ∀ t ∈ pre,
      check_underscore_modulos t original_literal modulo line column = none)
    (hseg : check_underscore_modulos seg original_literal modulo line column =
      some r) :
    findFirstError (pre ++ seg :: post) original_literal modulo line column =
      some r := by
  induction pre with
  | nil => simp [findFirstError, hseg]
  | cons t ts ih =>
    have ht := hpre t (by simp)
    simp only [List.cons_append, findFirstError, ht]
    exact ih fun u hu => hpre u (by simp [hu])

theorem findFirstError_some (parts : List (List Char))
    (original_literal : List Char) (modulo line column : Nat) (r : ErrorReport)
    (h : findFirstError parts original_literal modulo line column = some r) :
    r = ⟨line, column, mkMessage modulo original_literal⟩ := by
  induction parts with
  | nil => simp [findFirstError] at h
  | cons p rest ih =>
    simp only [findFirstError] at h
    cases hc : check_underscore_modulos p original_literal modulo line column with
    | some e =>
      rw [hc] at h
      have := check_underscore_modulos_some _ _ _ _ _ _ hc
      rw [← this]
      exact (Option.some_injective _ h).symm
    | none =>
      rw [hc] at h
      exact ih h

theorem base_value_cases (s : List Char) :
    base_value s = 2 ∨ base_value s = 8 ∨ base_value s = 16 ∨
      base_value s = 10 := by
  unfold base_value
  split_ifs <;> simp

theorem findFirstError_singleton (p original_literal : List Char)
    (modulo line column : Nat) :
    findFirstError [p] original_literal modulo line column =
      check_underscore_modulos p original_literal modulo line column := by
  unfold findFirstError
  cases h : check_underscore_modulos p original_literal modulo line column with
  | some e => simp [h]
  | none => simp [h, findFirstError]

theorem check_underscore_modulos_long (fragment original_literal : List Char)
    (modulo line column : Nat) (hu : '_' ∉ fragment)
    (hlong : fragment.length > modulo) :
    check_underscore_modulos fragment original_literal modulo line column =
      some ⟨line, column, mkMessage modulo original_literal⟩ := by
  cases hc : check_underscore_modulos fragment original_literal modulo line column with
  | none =>
    have hgood :=
      (check_underscore_modulos_none_iff fragment original_literal modulo
        line column).mp hc
    rw [splitOnChar_of_not_mem '_' fragment hu] at hgood
    simp only [goodShape] at hgood
    exact absurd hlong (Nat.not_lt.mpr hgood.1)
  | some r =>
    rw [check_underscore_modulos_some fragment original_literal modulo line
        column r hc]

theorem check_constant_ok (s : List Char) (line column : Nat)
    (segs : List (List Char))
    (hTF : ¬ (s = "True".data ∨ s = "False".data))
    (hseg : segmentsOf s = .ok segs) :
    check_constant s line column =
      .ok (findFirstError segs s
        (separator_modulo_for_base (base_value s)) line column) := by
  unfold check_constant
  rw [if_neg hTF, hseg]

theorem check_constant_error (s : List Char) (line column : Nat)
    (hTF : ¬ (s = "True".data ∨ s = "False".data))
    (hseg : segmentsOf s = .error ()) :
    check_constant s line column = .error () := by
  unfold check_constant
  rw [if_neg hTF, hseg]

/-! ### The claims -/

/-- C1: for every segment, the underscore validation produces no finding
if and only if the first underscore-delimited part has length at most the
required group width and every subsequent part has length exactly the
width (`goodShape`); consequently any literal all of whose segments
satisfy this shape produces no finding, regardless of total digit count. -/
theorem segment_passes_iff_goodShape :
    (∀ fragment original_literal modulo line column,
      check_underscore_modulos fragment original_literal modulo line column =
        none ↔ goodShape (splitOnChar '_' fragment) modulo) ∧
    (∀ original_literal line column segs,
      segmentsOf original_literal = .ok segs →
      (∀ seg ∈ segs,
        goodShape (splitOnChar '_' seg)
          (separator_modulo_for_base (base_value original_literal))) →
      check_constant original_literal line column = .ok none) := by
  constructor
  · intro fragment original_literal modulo line column
    exact check_underscore_modulos_none_iff fragment original_literal modulo
      line column
  · intro original_literal line column segs hsegs hall
    by_cases hTF : original_literal = "True".data ∨ original_literal = "False".data
    · unfold check_constant
      rw [if_pos hTF]
    · rw [check_constant_ok original_literal line column segs hTF hsegs]
      rw [(findFirstError_none_iff segs original_literal
        (separator_modulo_for_base (base_value original_literal)) line
        column).mpr]
      intro p hp
      exact (check_underscore_modulos_none_iff p original_literal
        (separator_modulo_for_base (base_value original_literal)) line
        column).mpr (hall p hp)

/-- Witness for C1: the 14-digit decimal literal `10_000_000_000_000`
(one segment, leading part `10`, then four groups of 3) passes. -/
theorem segment_passes_iff_goodShape_witness :
    check_constant "10_000_000_000_000".data 1 0 = .ok none :=
  segment_passes_iff_goodShape.2 "10_000_000_000_000".data 1 0
    ["10_000_000_000_000".data] (by decide) (by decide)

/-- C2: the spec promises `validate` is deterministic and total (never
fails), in particular on decimal scientific-notation literals with an
uppercase `E` exponent marker.  The code detects the marker
case-insensitively but then splits on the lowercase `"e"` only, so
`e_parts[1]` raises `IndexError` on `1E5`: the evaluation of the embedded
code at that input reaches the exception path. -/
theorem uppercase_marker_raises :
    check_constant "1E5".data 1 0 = .error () ∧
      validate "1E5".data 1 0 = .error () :=
  ⟨by decide, by decide⟩

/-- C3: a leading minus sign is stripped before classification and
segmentation (in the program, by the source front end: a unary minus is
not part of the constant node), so prefixing a literal text with `-`
never changes the outcome of `validate`. -/
theorem sign_neutrality (L : List Char) (line column : Nat)
    (h : stripSign L = L) :
    validate ('-' :: L) line column = validate L line column := by
  unfold validate
  rw [show stripSign ('-' :: L) = L from rfl, h]

/-- Witness for C3: `-100_000` versus `100_000`. -/
theorem sign_neutrality_witness :
    validate ('-' :: "100_000".data) 1 0 = validate "100_000".data 1 0 :=
  sign_neutrality "100_000".data 1 0 (by decide)

/-- C4: the required separator group width is 4 for binary, octal and
hexadecimal literals and 3 for decimal ones; and a binary/octal/hex
plain-integer literal without underscores is flagged by `validate` iff it
has more than 4 digits after the two-character prefix.  (`stripSign L = L`
records that a prefixed literal's text starts with `0`, not a sign.) -/
theorem nondecimal_width_and_plain_flagging (L : List Char) (line column : Nat)
    (hns : stripSign L = L) (hb : base_value L ≠ 10) (hu : '_' ∉ L)
    (hd : '.' ∉ L) :
    separator_modulo_for_base 2 = 4 ∧ separator_modulo_for_base 8 = 4 ∧
    separator_modulo_for_base 16 = 4 ∧ separator_modulo_for_base 10 = 3 ∧
    ((∃ r, validate L line column = .ok (some r)) ↔ L.length - 2 > 4) := by
  refine ⟨rfl, rfl, rfl, rfl, ?_⟩
  have hv : validate L line column = check_constant L line column := by
    unfold validate
    rw [hns]
  have hTF : ¬ (L = "True".data ∨ L = "False".data) := by
    rintro (rfl | rfl) <;> exact hb (by decide)
  have hseg : segmentsOf L = .ok [L.drop 2] := by
    unfold segmentsOf
    rw [if_neg (fun hc => hb hc.1), if_neg hd, if_pos hb]
  have hm : separator_modulo_for_base (base_value L) = 4 := by
    rcases base_value_cases L with h | h | h | h
    · rw [h]; rfl
    · rw [h]; rfl
    · rw [h]; rfl
    · exact absurd h hb
  have hnu : '_' ∉ L.drop 2 := fun hmem => hu (List.mem_of_mem_drop hmem)
  have hsplit := splitOnChar_of_not_mem '_' (L.drop 2) hnu
  have hlen : (L.drop 2).length = L.length - 2 := List.length_drop 2 L
  rw [hv, check_constant_ok L line column [L.drop 2] hTF hseg, hm,
    findFirstError_singleton]
  cases hc : check_underscore_modulos (L.drop 2) L 4 line column with
  | none =>
    have hgood :=
      (check_underscore_modulos_none_iff (L.drop 2) L 4 line column).mp hc
    rw [hsplit] at hgood
    simp only [goodShape] at hgood
    have h1 := hgood.1
    constructor
    · rintro ⟨r, hr⟩
      simp at hr
    · intro hgt
      exact absurd hgt (by omega)
  | some e =>
    have hng : ¬ goodShape (splitOnChar '_' (L.drop 2)) 4 := by
      intro hg
      have hnone :=
        (check_underscore_modulos_none_iff (L.drop 2) L 4 line column).mpr hg
      rw [hc] at hnone
      exact Option.noConfusion hnone
    rw [hsplit] at hng
    simp only [goodShape] at hng
    have h5 : ¬ (L.drop 2).length ≤ 4 := fun hle => hng ⟨hle, by simp⟩
    constructor
    · intro _
      omega
    · intro _
      exact ⟨e, rfl⟩

/-- Witness for C4: `0xDEADBEEF` (8 hex digits, no separator) is flagged. -/
theorem nondecimal_width_and_plain_flagging_witness :
    separator_modulo_for_base 2 = 4 ∧ separator_modulo_for_base 8 = 4 ∧
    separator_modulo_for_base 16 = 4 ∧ separator_modulo_for_base 10 = 3 ∧
    ((∃ r, validate "0xDEADBEEF".data 1 0 = .ok (some r)) ↔
      "0xDEADBEEF".data.length - 2 > 4) :=
  nondecimal_width_and_plain_flagging "0xDEADBEEF".data 1 0 (by decide)
    (by decide) (by decide) (by decide)

/-- C5: a decimal plain-integer literal without underscores is flagged by
`validate` if and only if its length, ignoring a leading sign, exceeds 3. -/
theorem decimal_plain_flagging (L : List Char) (line column : Nat)
    (hb : base_value (stripSign L) = 10)
    (he : 'e' ∉ lowerStr (stripSign L))
    (hd : '.' ∉ stripSign L)
    (hu : '_' ∉ stripSign L) :
    (∃ r, validate L line column = .ok (some r)) ↔ (stripSign L).length > 3 := by
  unfold validate
  have hTF : ¬ (stripSign L = "True".data ∨ stripSign L = "False".data) := by
    rintro (h | h) <;> (rw [h] at he; exact he (by decide))
  have hseg : segmentsOf (stripSign L) = .ok [stripSign L] := by
    unfold segmentsOf
    rw [if_neg (fun hc => he hc.2), if_neg hd, if_neg (fun hc => hc hb)]
  have hm : separator_modulo_for_base (base_value (stripSign L)) = 3 := by
    rw [hb]; rfl
  have hsplit := splitOnChar_of_not_mem '_' (stripSign L) hu
  rw [check_constant_ok (stripSign L) line column [stripSign L] hTF hseg, hm,
    findFirstError_singleton]
  cases hc : check_underscore_modulos (stripSign L) (stripSign L) 3 line column with
  | none =>
    have hgood :=
      (check_underscore_modulos_none_iff (stripSign L) (stripSign L) 3 line
        column).mp hc
    rw [hsplit] at hgood
    simp only [goodShape] at hgood
    have h1 := hgood.1
    constructor
    · rintro ⟨r, hr⟩
      simp at hr
    · intro hgt
      exact absurd hgt (by omega)
  | some e =>
    have hng : ¬ goodShape (splitOnChar '_' (stripSign L)) 3 := by
      intro hg
      have hnone :=
        (check_underscore_modulos_none_iff (stripSign L) (stripSign L) 3 line
          column).mpr hg
      rw [hc] at hnone
      exact Option.noConfusion hnone
    rw [hsplit] at hng
    simp only [goodShape] at hng
    have h5 : ¬ (stripSign L).length ≤ 3 := fun hle => hng ⟨hle, by simp⟩
    constructor
    · intro _
      omega
    · intro _
      exact ⟨e, rfl⟩

/-- Witness for C5: `-1000` (4 digits after the sign) is flagged. -/
theorem decimal_plain_flagging_witness :
    (∃ r, validate "-1000".data 1 0 = .ok (some r)) ↔
      (stripSign "-1000".data).length > 3 :=
  decimal_plain_flagging "-1000".data 1 0 (by decide) (by decide) (by decide)
    (by decide)

/-- C6: per the spec a scientific-notation literal is split at the
exponent marker into mantissa and exponent, the mantissa is further split
at its decimal point, and the exponent is checked with the same group
width 3, so a correctly grouped mantissa with an ungrouped 4-digit
exponent must fail.  The code only realizes this for a lowercase marker
(first two conjuncts, at `123.456e1234`); with an uppercase marker the
case-insensitive detection combines with a case-sensitive split and the
code raises `IndexError` instead of flagging (third conjunct, the same
literal written `123.456E1234`). -/
theorem exponent_checked_with_width_3 :
    segmentsOf "123.456e1234".data =
      .ok [['1', '2', '3'], ['4', '5', '6'], ['1', '2', '3', '4']] ∧
    check_constant "123.456e1234".data 1 0 =
      .ok (some ⟨1, 0, mkMessage 3 "123.456e1234".data⟩) ∧
    check_constant "123.456E1234".data 1 0 = .error () :=
  ⟨by decide, by decide, by decide⟩

/-- C7: `check_constant` returns no finding or exactly one finding (its
result is an `Option`), and when a violating segment exists the reported
finding is the one produced by the first violating segment in segment
order: all segments before it pass, and the loop returns on it without
examining later segments. -/
theorem first_violating_segment_reported (L : List Char) (line column : Nat)
    (pre : List (List Char)) (seg : List Char) (post : List (List Char))
    (r : ErrorReport)
    (hns : stripSign L = L)
    (hTF : ¬ (L = "True".data ∨ L = "False".data))
    (hseg : segmentsOf L = .ok (pre ++ seg :: post))
    (hpre : ∀ t ∈ pre,
      check_underscore_modulos t L
        (separator_modulo_for_base (base_value L)) line column = none)
    (hv : check_underscore_modulos seg L
      (separator_modulo_for_base (base_value L)) line column = some r) :
    validate L line column = .ok (some r) := by
  unfold validate
  rw [hns, check_constant_ok L line column (pre ++ seg :: post) hTF hseg,
    findFirstError_first pre seg post L
      (separator_modulo_for_base (base_value L)) line column r hpre hv]

/-- Witness for C7: in `123.45678` the integer segment passes and the
fractional segment is the first violator. -/
theorem first_violating_segment_reported_witness :
    validate "123.45678".data 1 0 =
      .ok (some ⟨1, 0, mkMessage 3 "123.45678".data⟩) :=
  first_violating_segment_reported "123.45678".data 1 0 [['1', '2', '3']]
    ['4', '5', '6', '7', '8'] [] ⟨1, 0, mkMessage 3 "123.45678".data⟩
    (by decide) (by decide) (by decide) (by decide) (by decide)

/-- C8: every finding carries the literal's original (line, column)
position and the fixed message template naming the required group width
and the original literal text, tagged with the `NUM01` rule code —
independent of which segment failed. -/
theorem finding_position_and_message (L : List Char) (line column : Nat)
    (r : ErrorReport)
    (h : check_constant L line column = .ok (some r)) :
    r.line = line ∧ r.column = column ∧
      r.message =
        "NUM01: Use underscores every " ++
          toString (separator_modulo_for_base (base_value L)) ++
          " digits in large numeric literals (" ++ String.mk L ++
          ") for better readability." := by
  by_cases hTF : L = "True".data ∨ L = "False".data
  · unfold check_constant at h
    rw [if_pos hTF] at h
    simp at h
  · cases hs : segmentsOf L with
    | error e =>
      cases e
      rw [check_constant_error L line column hTF hs] at h
      exact Except.noConfusion h
    | ok segs =>
      rw [check_constant_ok L line column segs hTF hs] at h
      have hf := Except.ok.inj h
      have hr := findFirstError_some segs L
        (separator_modulo_for_base (base_value L)) line column r hf
      rw [hr]
      exact ⟨rfl, rfl, rfl⟩

/-- Witness for C8: the finding for `1000` at position (5, 7). -/
theorem finding_position_and_message_witness :
    (⟨5, 7, mkMessage 3 "1000".data⟩ : ErrorReport).line = 5 ∧
    (⟨5, 7, mkMessage 3 "1000".data⟩ : ErrorReport).column = 7 ∧
    (⟨5, 7, mkMessage 3 "1000".data⟩ : ErrorReport).message =
      "NUM01: Use underscores every " ++
        toString (separator_modulo_for_base (base_value "1000".data)) ++
        " digits in large numeric literals (" ++ String.mk "1000".data ++
        ") for better readability." :=
  finding_position_and_message "1000".data 5 7 ⟨5, 7, mkMessage 3 "1000".data⟩
    (by decide)

/-- C9: in a scientific-notation literal `M ++ "e" ++ "+" ++ D` the
explicit exponent sign is kept inside the exponent segment, so it counts
toward the leading part's length: with a correctly grouped mantissa and an
underscore-free exponent of at least 3 digits after the sign, the part
`'+' :: D` has length at least 4 > 3 and the literal is flagged. -/
theorem signed_exponent_counts_sign (M D : List Char) (line column : Nat)
    (hb : base_value (M ++ 'e' :: '+' :: D) = 10)
    (hM : 'e' ∉ M)
    (hD : 'e' ∉ D)
    (hu : '_' ∉ D)
    (hlen : D.length ≥ 3)
    (hmant : ∀ seg ∈ splitOnChar '.' M,
      check_underscore_modulos seg (M ++ 'e' :: '+' :: D) 3 line column =
        none) :
    segmentsOf (M ++ 'e' :: '+' :: D) =
      .ok (splitOnChar '.' M ++ [('+' :: D)]) ∧
    check_constant (M ++ 'e' :: '+' :: D) line column =
      .ok (some ⟨line, column, mkMessage 3 (M ++ 'e' :: '+' :: D)⟩) := by
  have he_mem : 'e' ∈ lowerStr (M ++ 'e' :: '+' :: D) := by
    unfold lowerStr
    rw [List.mem_map]
    exact ⟨'e', by simp, by decide⟩
  have hne : 'e' ∉ '+' :: D := by
    intro hmem
    rcases List.mem_cons.mp hmem with h | h
    · exact absurd h (by decide)
    · exact hD h
  have hsplit_e : splitOnChar 'e' (M ++ 'e' :: '+' :: D) = [M, '+' :: D] := by
    rw [splitOnChar_append 'e' M ('+' :: D) hM,
      splitOnChar_of_not_mem 'e' ('+' :: D) hne]
  have hseg : segmentsOf (M ++ 'e' :: '+' :: D) =
      .ok (splitOnChar '.' M ++ [('+' :: D)]) := by
    unfold segmentsOf
    rw [if_pos ⟨hb, he_mem⟩, hsplit_e]
  have hTF : ¬ (M ++ 'e' :: '+' :: D = "True".data ∨
      M ++ 'e' :: '+' :: D = "False".data) := by
    rintro (h | h)
    · have hp : '+' ∈ "True".data := by rw [← h]; simp
      exact absurd hp (by decide)
    · have hp : '+' ∈ "False".data := by rw [← h]; simp
      exact absurd hp (by decide)
  have hm : separator_modulo_for_base (base_value (M ++ 'e' :: '+' :: D)) = 3 := by
    rw [hb]; rfl
  have hnu : '_' ∉ '+' :: D := by
    intro hmem
    rcases List.mem_cons.mp hmem with h | h
    · exact absurd h (by decide)
    · exact hu h
  have hexp := check_underscore_modulos_long ('+' :: D) (M ++ 'e' :: '+' :: D)
    3 line column hnu (by simp only [List.length_cons]; omega)
  refine ⟨hseg, ?_⟩
  rw [check_constant_ok (M ++ 'e' :: '+' :: D) line column
    (splitOnChar '.' M ++ [('+' :: D)]) hTF hseg, hm,
    findFirstError_first (splitOnChar '.' M) ('+' :: D) []
      (M ++ 'e' :: '+' :: D) 3 line column
      ⟨line, column, mkMessage 3 (M ++ 'e' :: '+' :: D)⟩ hmant hexp]

/-- Witness for C9: `1.5e+100` — grouped mantissa, exponent `+100` of part
length 4 — is flagged. -/
theorem signed_exponent_counts_sign_witness :
    segmentsOf ("1.5".data ++ 'e' :: '+' :: "100".data) =
      .ok (splitOnChar '.' "1.5".data ++ [('+' :: "100".data)]) ∧
    check_constant ("1.5".data ++ 'e' :: '+' :: "100".data) 1 0 =
      .ok (some ⟨1, 0, mkMessage 3 ("1.5".data ++ 'e' :: '+' :: "100".data)⟩) :=
  signed_exponent_counts_sign "1.5".data "100".data 1 0 (by decide) (by decide)
    (by decide) (by decide) (by decide) (by decide)

/-- C10: a decimal literal whose text begins with the decimal point has
the empty string as its integer segment; that segment's single leading
part has length 0 ≤ 3 and is accepted, so the literal is flagged only if
one of the remaining (fractional/exponent) segments violates the rule. -/
theorem empty_integer_part_accepted (rest : List Char) (line column : Nat)
    (segs : List (List Char))
    (hseg : segmentsOf ('.' :: rest) = .ok segs) :
    ∃ tailSegs, segs = [] :: tailSegs ∧
      check_underscore_modulos [] ('.' :: rest) 3 line column = none ∧
      (check_constant ('.' :: rest) line column = .ok none ↔
        ∀ seg ∈ tailSegs,
          check_underscore_modulos seg ('.' :: rest) 3 line column = none) := by
  have hTF : ¬ ('.' :: rest = "True".data ∨ '.' :: rest = "False".data) := by
    rintro (h | h)
    · rw [show "True".data = ['T', 'r', 'u', 'e'] from rfl] at h
      exact absurd (List.cons.inj h).1 (by decide)
    · rw [show "False".data = ['F', 'a', 'l', 's', 'e'] from rfl] at h
      exact absurd (List.cons.inj h).1 (by decide)
  have hbase : base_value ('.' :: rest) = 10 := by
    have htake : (lowerStr ('.' :: rest)).take 2 =
        '.' :: (lowerStr rest).take 1 := by
      unfold lowerStr
      rw [List.map_cons, show Char.toLower '.' = '.' from by decide,
        List.take_succ_cons]
    unfold base_value
    rw [htake,
      if_neg (fun h => absurd (List.cons.inj h).1 (by decide)),
      if_neg (fun h => absurd (List.cons.inj h).1 (by decide)),
      if_neg (fun h => absurd (List.cons.inj h).1 (by decide))]
  have hempty : check_underscore_modulos [] ('.' :: rest) 3 line column =
      none := rfl
  have hsz : ∃ tailSegs, segs = [] :: tailSegs := by
    by_cases he : base_value ('.' :: rest) = 10 ∧
        'e' ∈ lowerStr ('.' :: rest)
    · unfold segmentsOf at hseg
      rw [if_pos he] at hseg
      obtain ⟨s, ss, hss⟩ :=
        List.exists_cons_of_ne_nil (splitOnChar_ne_nil 'e' rest)
      rw [show splitOnChar 'e' ('.' :: rest) =
          consHead '.' (splitOnChar 'e' rest) from by
        simp [splitOnChar, show ¬ ('.' : Char) = 'e' from by decide]] at hseg
      rw [hss] at hseg
      cases ss with
      | nil => exact Except.noConfusion hseg
      | cons e1 ss2 =>
        have hseg2 : (Except.ok (splitOnChar '.' ('.' :: s) ++ [e1]) :
            Except Unit (List (List Char))) = .ok segs := hseg
        have hzero : splitOnChar '.' ('.' :: s) = [] :: splitOnChar '.' s := by
          simp [splitOnChar]
        refine ⟨splitOnChar '.' s ++ [e1], ?_⟩
        rw [← Except.ok.inj hseg2, hzero]
        rfl
    · unfold segmentsOf at hseg
      rw [if_neg he, if_pos (List.mem_cons_self '.' rest)] at hseg
      have hzero : splitOnChar '.' ('.' :: rest) =
          [] :: splitOnChar '.' rest := by
        simp [splitOnChar]
      rw [hzero] at hseg
      exact ⟨splitOnChar '.' rest, (Except.ok.inj hseg).symm⟩
  obtain ⟨tailSegs, htail⟩ := hsz
  refine ⟨tailSegs, htail, hempty, ?_⟩
  have hm : separator_modulo_for_base (base_value ('.' :: rest)) = 3 := by
    rw [hbase]; rfl
  rw [check_constant_ok ('.' :: rest) line column segs hTF hseg, hm, htail]
  simp only [findFirstError, hempty]
  constructor
  · intro h
    exact (findFirstError_none_iff tailSegs ('.' :: rest) 3 line column).mp
      (Except.ok.inj h)
  · intro h
    rw [(findFirstError_none_iff tailSegs ('.' :: rest) 3 line column).mpr h]

/-- Witness for C10: `.5` — integer segment empty, fractional segment
`5` — passes. -/
theorem empty_integer_part_accepted_witness :
    ∃ tailSegs, ([[], ['5']] : List (List Char)) = [] :: tailSegs ∧
      check_underscore_modulos [] ('.' :: ['5']) 3 1 0 = none ∧
      (check_constant ('.' :: ['5']) 1 0 = .ok none ↔
        ∀ seg ∈ tailSegs,
          check_underscore_modulos seg ('.' :: ['5']) 3 1 0 = none) :=
  empty_integer_part_accepted ['5'] 1 0 [[], ['5']] (by decide)

/-! ### Conformance of the embedding with the repository's test suite
(`tests/test_flake8_numbers.py`), plus the uppercase-marker exception
path. -/
example : check_constant "100_000".data 1 0 = .ok none := by decide
example : check_constant "1000".data 1 0 ≠ .ok none := by decide
example : check_constant "0xDEAD_BEEF".data 1 0 = .ok none := by decide
example : check_constant "0xDEADBEEF".data 1 0 ≠ .ok none := by decide
example : check_constant "0o17_1234".data 1 0 = .ok none := by decide
example : check_constant "0o171_234".data 1 0 ≠ .ok none := by decide
example : check_constant "123_456_789.123_456_789".data 1 0 = .ok none := by
  decide
example : check_constant "123_456_789.123456789".data 1 0 ≠ .ok none := by
  decide
example : check_constant "True".data 1 0 = .ok none := by decide
example : check_constant "1E5".data 1 0 = .error () := by decide
example : check_constant "1.5e10".data 1 0 = .ok none := by decide
example : check_constant "1.5e+100".data 1 0 ≠ .ok none := by decide
example : check_constant ".5".data 1 0 = .ok none := by decide
example : validate "-100_000".data 1 0 = .ok none := by decide
example : check_constant "0b1010_1010".data 1 0 = .ok none := by decide
example : check_constant "0b10101010".data 1 0 ≠ .ok none := by decide

end Flake8Numbers
